import Mathlib

/-!
Verification development for the bluetuith command-line option layer
(`cmd/flags.go`): the layered configuration loader, the property store, and
the per-option validators (`cmdOptionAdapterStates`, `cmdOptionGsm`,
`cmdOptionListAdapters`, `cmdOptionVersion`).

Fatal diagnostics (`PrintError`: print and terminate with non-zero status)
are modelled as `Except.error`; a validator that completes returns the
updated property store in `Except.ok`.
-/

namespace Bluetuith

/-! ## String primitives (Go standard library, as used by the source) -/

/-- Splits a character list at every character satisfying `sep`, keeping
empty fields: the semantics of Go `strings.Split` with a one-character
separator, on the underlying characters. -/
def splitListAux (sep : Char → Bool) : List Char → List Char → List (List Char)
  | [], cur => [cur.reverse]
  | c :: cs, cur =>
    if sep c then cur.reverse :: splitListAux sep cs []
    else splitListAux sep cs (c :: cur)

/-- Go `strings.Split(s, c)` for a one-character separator `c`. -/
def splitChar (s : String) (c : Char) : List String :=
  (splitListAux (fun x => x == c) s.data []).map (fun l => String.mk l)

/-- Go `strings.FieldsFunc(s, f)` where `f` holds on spaces and colons:
split at every space or colon and drop the empty fields. -/
def fieldsFunc (s : String) : List String :=
  ((splitListAux (fun c => c == ' ' || c == ':') s.data []).map
    (fun l => String.mk l)).filter (fun f => f ≠ "")

/-- Go `strings.Join(l, sep)`. -/
def joinSep (sep : String) : List String → String
  | [] => ""
  | [x] => x
  | x :: y :: xs => x ++ sep ++ joinSep sep (y :: xs)

/-- Go `strings.TrimRight(s, c)` for a one-character cut set: remove every
trailing occurrence of `c`. -/
def dropRightChars (s : String) (c : Char) : String :=
  String.mk ((s.data.reverse.dropWhile (fun x => x == c)).reverse)

/-- Go `path/filepath.Base` (on slash-separated paths): the last element of
the path after removing trailing slashes, `"."` for the empty path and
`"/"` for a path of only slashes. -/
def filepathBase (path : String) : String :=
  if path = "" then "."
  else
    let trimmed := dropRightChars path '/'
    if trimmed = "" then "/"
    else (splitChar trimmed '/').getLastD trimmed

/-! ## The property store -/

instance instDecEqExcept {ε α : Type} [DecidableEq ε] [DecidableEq α] :
    DecidableEq (Except ε α) := fun x y =>
  match x, y with
  | .ok a, .ok b =>
    if h : a = b then .isTrue (by rw [h])
    else .isFalse (by intro hc; cases hc; exact h rfl)
  | .error a, .error b =>
    if h : a = b then .isTrue (by rw [h])
    else .isFalse (by intro hc; cases hc; exact h rfl)
  | .ok _, .error _ => .isFalse (by intro hc; cases hc)
  | .error _, .ok _ => .isFalse (by intro hc; cases hc)

/-- A value held by the property store: a raw string, a boolean flag, or a
structured string-keyed mapping (used by `adapter-states`). -/
inductive Value where
  | str : String → Value
  | boolean : Bool → Value
  | strMap : List (String × String) → Value
deriving DecidableEq

/-- Association-list insert with overwrite: the entry for `k` is replaced in
place when present, appended otherwise. -/
def insertEntry {α : Type} : List (String × α) → String → α → List (String × α)
  | [], k, v => [(k, v)]
  | (k', v') :: rest, k, v =>
    if k' = k then (k, v) :: rest else (k', v') :: insertEntry rest k v

/-- Association-list lookup: the first entry whose key is `k`. -/
def lookupEntry {α : Type} : List (String × α) → String → Option α
  | [], _ => none
  | (k', v') :: rest, k => if k' = k then some v' else lookupEntry rest k

/-- The merged property store: option name to dynamically-typed value. -/
abbrev Store := List (String × Value)

/-- Modelled from the spec: `GetProperty` (property store accessor, outside
src/) returns the stored string, or the empty string when the property is
absent or not string-typed. -/
def getProperty (st : Store) (name : String) : String :=
  match lookupEntry st name with
  | some (.str s) => s
  | _ => ""

/-- Modelled from the spec: `IsPropertyEnabled` (property store accessor,
outside src/) is the boolean presence/true check. -/
def isPropertyEnabled (st : Store) (name : String) : Bool :=
  match lookupEntry st name with
  | some (.boolean b) => b
  | _ => false

/-- Modelled from the spec: `AddProperty` (property store accessor, outside
src/) overwrites the named property with the given value. -/
def addProperty (st : Store) (name : String) (v : Value) : Store :=
  insertEntry st name v

/-! ## cmdOptionAdapterStates -/

/-- The valid `adapter-states` property names (source order). -/
def propertyOptions : List String := ["powered", "scan", "discoverable", "pairable"]

/-- The valid `adapter-states` state tokens (source order). -/
def stateOptions : List String := ["yes", "no", "y", "n", "on", "off"]

/-- Diagnostic for a token that does not split into exactly two fields. -/
def formatErrMsg (ps : String) : String :=
  "Provided property:state format \x27" ++ ps ++ "\x27 is incorrect."

/-- Diagnostic for an unknown property name, listing the valid properties. -/
def propertyErrMsg (p : String) : String :=
  "Provided property \x27" ++ p ++ "\x27 is incorrect.\nValid properties are \x27"
    ++ joinSep ", " propertyOptions ++ ".\x27"

/-- Diagnostic for an unknown state token, listing the valid states. -/
def stateErrMsg (s p : String) : String :=
  "Provided state \x27" ++ s ++ "\x27 for property \x27" ++ p
    ++ "\x27 is incorrect.\nValid states are \x27" ++ joinSep ", " stateOptions ++ "\x27."

/-- The `switch state` normalization: `yes`/`y`/`on` become `yes`,
`no`/`n`/`off` become `no`, anything else is fatal with the state
diagnostic. -/
def normalizeState (p st : String) : Except String String :=
  if st = "yes" ∨ st = "y" ∨ st = "on" then .ok "yes"
  else if st = "no" ∨ st = "n" ∨ st = "off" then .ok "no"
  else .error (stateErrMsg st p)

/-- Per-token processing of one `property:state` token, in source order:
field-count check, property membership check, then state normalization.
Returns the property name and the canonical state. -/
def processToken (ps : String) : Except String (String × String) :=
  match fieldsFunc ps with
  | [p, st] =>
    if propertyOptions.contains p then
      match normalizeState p st with
      | .ok s => .ok (p, s)
      | .error e => .error e
    else .error (propertyErrMsg p)
  | _ => .error (formatErrMsg ps)

/-- Accumulator of the `adapter-states` loop: the property-to-state mapping
under construction and the ordered sequence of property names. -/
structure AdapterStatesAcc where
  properties : List (String × String)
  sequence : List String
deriving DecidableEq

/-- The `adapter-states` loop: process each token in order; a fatal token
aborts the loop, a valid token writes its canonical state to the mapping and
appends its property name to the sequence. -/
def runTokens : List String → AdapterStatesAcc → Except String AdapterStatesAcc
  | [], acc => .ok acc
  | ps :: rest, acc =>
    match processToken ps with
    | .error e => .error e
    | .ok (p, s) =>
      runTokens rest ⟨insertEntry acc.properties p s, acc.sequence ++ [p]⟩

/-- `cmdOptionAdapterStates`: no-op when the option is empty; otherwise
split the option on commas, run the token loop, add the comma-joined
`sequence` key to the resulting mapping and store it under
`adapter-states`. -/
def cmdOptionAdapterStates (st : Store) : Except String Store :=
  let input := getProperty st "adapter-states"
  if input = "" then .ok st
  else
    match runTokens (splitChar input ',') ⟨[], []⟩ with
    | .error e => .error e
    | .ok acc =>
      .ok (addProperty st "adapter-states"
        (.strMap (insertEntry acc.properties "sequence" (joinSep "," acc.sequence))))

/-! ## cmdOptionGsm -/

/-- `cmdOptionGsm`: fatal when a GSM APN is supplied without a number; otherwise
store the APN unchanged and the number, defaulted to `*99#` when empty. -/
def cmdOptionGsm (st : Store) : Except String Store :=
  let optionGsmNumber := getProperty st "gsm-number"
  let optionGsmApn := getProperty st "gsm-apn"
  if optionGsmNumber = "" ∧ optionGsmApn ≠ "" then
    .error "Specify GSM Number."
  else
    let number := if optionGsmNumber ≠ "" then optionGsmNumber else "*99#"
    .ok (addProperty (addProperty st "gsm-apn" (.str optionGsmApn))
          "gsm-number" (.str number))

/-! ## cmdOptionListAdapters -/

/-- An adapter as consumed by the option layer: a display name and a
D-Bus-style object path whose base segment (`hci0`, ...) identifies it. -/
structure Adapter where
  name : String
  path : String
deriving DecidableEq

/-- `cmdOptionListAdapters`: when `list-adapters` is enabled, build the
adapter listing (header line, then one `- <base>` line per adapter, with the
trailing newline trimmed) and print it. Modelled from the spec: the `Print`
primitive is outside src/, and the spec states that the list-adapters action
prints and continues, not stopping option processing; so the validator
returns the (optional) printed text together with the untouched store. -/
def cmdOptionListAdapters (adapters : List Adapter) (st : Store) :
    Option String × Store :=
  if !(isPropertyEnabled st "list-adapters") then (none, st)
  else
    (some (dropRightChars
      (adapters.foldl (fun acc a => acc ++ "- " ++ filepathBase a.path ++ "\n")
        "List of adapters:\n") '\n'), st)

/-! ## cmdOptionVersion -/

/-- Outcome of the version action: either the option was not enabled and
processing proceeds, or a version string was printed as a terminal
informational action. -/
inductive VersionOutcome where
  | proceed : VersionOutcome
  | printed : String → VersionOutcome
deriving DecidableEq

/-- `cmdOptionVersion`: when `version` is enabled, split the encoded
`Version` value on `@`; with fewer than two segments print
`Bluetuith v<version>`, otherwise print `Bluetuith v<segment0> (<segment1>)`.
Modelled from the spec: `Print` (outside src/) is a terminal informational
action for the version option, so the first print ends the process and the
two branches are exclusive. -/
def cmdOptionVersion (vVersion : String) (st : Store) : VersionOutcome :=
  if isPropertyEnabled st "version" then
    match splitChar vVersion '@' with
    | v0 :: v1 :: _ => .printed ("Bluetuith v" ++ v0 ++ " (" ++ v1 ++ ")")
    | _ => .printed ("Bluetuith v" ++ vVersion)
  else .proceed

/-! ## The layered loader (parse): config file then flag overlay -/

/-- Modelled from the spec: `config.Load` with the file provider and the
structured-text parser (both outside src/). A missing config file is
tolerated and contributes nothing; present file content goes through the
parser `parseCfg`, whose failure is surfaced. -/
def loadConfigFile (parseCfg : String → Except String (List (String × Value))) :
    Option String → Except String (List (String × Value))
  | none => .ok []
  | some text => parseCfg text

/-- Modelled from the spec: the flag overlay (`config.Load` with the posflag
provider, outside src/). Each explicitly supplied flag value is written over
the file-provided store; unset flags do not appear in `flags` and so never
overwrite a file value. -/
def overlayFlags (fileStore : Store) (flags : Store) : Store :=
  flags.foldl (fun st kv => insertEntry st kv.1 kv.2) fileStore

/-- The config-resolution part of `parse`: load the config file (fatal on a
parse error) and overlay the explicitly supplied flag values. -/
def parseConfig (parseCfg : String → Except String (List (String × Value)))
    (cfgFile : Option String) (flags : Store) : Except String Store :=
  match loadConfigFile parseCfg cfgFile with
  | .error e => .error e
  | .ok fileStore => .ok (overlayFlags fileStore flags)

/-! ## Claim-side predicates -/

/-- A malformed `adapter-states` token in the sense of the spec: it does not
split into exactly two fields, or its property is not a valid property name,
or its state is not a valid state token. -/
def tokenMalformed (t : String) : Bool :=
  match fieldsFunc t with
  | [p, s] => !(propertyOptions.contains p) || !(stateOptions.contains s)
  | _ => true

/-- Boolean success test for `Except`. -/
def isOkE {ε α : Type} : Except ε α → Bool
  | .ok _ => true
  | .error _ => false

/-- The property/canonical-state pairs produced by the tokens that process
successfully, in input order. -/
def processedPairs (ts : List String) : List (String × String) :=
  ts.filterMap (fun t => (processToken t).toOption)

/-- Left fold of insert-with-overwrite over a pair list: the mapping built
by the `adapter-states` loop. -/
def applyPairs (pairs : List (String × String)) (m : List (String × String)) :
    List (String × String) :=
  pairs.foldl (fun m kv => insertEntry m kv.1 kv.2) m

/-- The state of the last pair naming `p` (the mapping entry after
last-write-wins accumulation). -/
def lastStateFor (pairs : List (String × String)) (p : String) : Option String :=
  lookupEntry pairs.reverse p

/-- First-some choice on options. -/
def optOr {α : Type} : Option α → Option α → Option α
  | some a, _ => some a
  | none, b => b

/-- A sample structured-text parser used to witness the loader claims:
empty input is an empty mapping, one recognized document, everything else a
parse error. -/
def sampleParse : String → Except String (List (String × Value)) :=
  fun t =>
    if t = "" then .ok []
    else if t = "adapter: hci0" then .ok [("adapter", Value.str "hci0")]
    else .error "parse error"

/-- Concatenation of the given lines, each terminated by a newline: the
string built by the `list-adapters` accumulation loop after its header. -/
def strJoinNL : List String → String
  | [] => ""
  | x :: xs => x ++ "\n" ++ strJoinNL xs

/-! ## Association-list lemmas -/

theorem optOr_none_right {α : Type} (x : Option α) : optOr x none = x := by
  cases x <;> rfl

theorem lookupEntry_insertEntry {α : Type} (m : List (String × α)) (k : String)
    (v : α) (k' : String) :
    lookupEntry (insertEntry m k v) k' = if k' = k then some v else lookupEntry m k' := by
  induction m with
  | nil =>
    by_cases h : k' = k
    · subst h; simp [insertEntry, lookupEntry]
    · simp [insertEntry, lookupEntry, h, Ne.symm h]
  | cons kv rest ih =>
    obtain ⟨k1, v1⟩ := kv
    by_cases h1 : k1 = k
    · subst h1
      by_cases h2 : k' = k1
      · subst h2; simp [insertEntry, lookupEntry]
      · simp [insertEntry, lookupEntry, h2, Ne.symm h2]
    · by_cases h2 : k1 = k'
      · subst h2
        simp [insertEntry, lookupEntry, h1, Ne.symm h1]
      · simp [insertEntry, lookupEntry, h1, h2, ih]

theorem lookupEntry_append {α : Type} (l1 l2 : List (String × α)) (k : String) :
    lookupEntry (l1 ++ l2) k = optOr (lookupEntry l1 k) (lookupEntry l2 k) := by
  induction l1 with
  | nil => rfl
  | cons kv rest ih =>
    obtain ⟨k1, v1⟩ := kv
    by_cases h : k1 = k <;> simp [lookupEntry, h, ih, optOr]

theorem lookupEntry_isSome_iff {α : Type} (l : List (String × α)) (k : String) :
    (lookupEntry l k).isSome = true ↔ k ∈ l.map Prod.fst := by
  induction l with
  | nil => simp [lookupEntry]
  | cons kv rest ih =>
    obtain ⟨k1, v1⟩ := kv
    by_cases h : k1 = k
    · subst h; simp [lookupEntry]
    · simp [lookupEntry, h, ih, Ne.symm h]

theorem lookupEntry_eq_none_of_not_mem {α : Type} (l : List (String × α))
    (k : String) (h : k ∉ l.map Prod.fst) : lookupEntry l k = none := by
  rw [← Option.not_isSome_iff_eq_none]
  intro hs
  exact h ((lookupEntry_isSome_iff l k).mp hs)

theorem lookupEntry_foldl_insert {α : Type} (l : List (String × α))
    (m0 : List (String × α)) (k : String) :
    lookupEntry (l.foldl (fun m kv => insertEntry m kv.1 kv.2) m0) k
      = optOr (lookupEntry l.reverse k) (lookupEntry m0 k) := by
  induction l generalizing m0 with
  | nil => rfl
  | cons kv rest ih =>
    obtain ⟨k1, v1⟩ := kv
    simp only [List.foldl_cons, List.reverse_cons]
    rw [ih, lookupEntry_append, lookupEntry_insertEntry]
    cases hrr : lookupEntry rest.reverse k with
    | some a => simp [optOr]
    | none =>
      by_cases h : k = k1
      · subst h; simp [optOr, lookupEntry]
      · have h' : ¬k1 = k := fun hh => h hh.symm
        simp [optOr, lookupEntry, h, h']

theorem lookupEntry_reverse_of_nodup {α : Type} (l : List (String × α))
    (hn : (l.map Prod.fst).Nodup) (k : String) :
    lookupEntry l.reverse k = lookupEntry l k := by
  induction l with
  | nil => rfl
  | cons kv rest ih =>
    obtain ⟨k1, v1⟩ := kv
    simp only [List.map_cons, List.nodup_cons] at hn
    obtain ⟨hnotin, hnd⟩ := hn
    simp only [List.reverse_cons]
    rw [lookupEntry_append]
    by_cases h : k1 = k
    · subst h
      have hnone : lookupEntry rest.reverse k1 = none := by
        apply lookupEntry_eq_none_of_not_mem
        rw [List.map_reverse, List.mem_reverse]
        exact hnotin
      simp [hnone, optOr, lookupEntry]
    · rw [ih hnd]
      have hone : lookupEntry [(k1, v1)] k = none := by
        simp [lookupEntry, h]
      rw [hone, optOr_none_right]
      simp [lookupEntry, h]

/-! ## adapter-states loop lemmas -/

theorem contains_iff_mem {l : List String} {a : String} :
    l.contains a = true ↔ a ∈ l := by
  simp [List.contains, List.elem_iff]

theorem stateOptions_contains_iff (s : String) :
    stateOptions.contains s = true ↔
      ((s = "yes" ∨ s = "y" ∨ s = "on") ∨ (s = "no" ∨ s = "n" ∨ s = "off")) := by
  rw [contains_iff_mem]
  constructor
  · intro h
    simp only [stateOptions, List.mem_cons, List.not_mem_nil, or_false] at h
    tauto
  · intro h
    simp only [stateOptions, List.mem_cons, List.not_mem_nil, or_false]
    tauto

theorem isOkE_exists {ε α : Type} (x : Except ε α) (h : isOkE x = true) :
    ∃ a, x = .ok a := by
  cases x with
  | ok a => exact ⟨a, rfl⟩
  | error e => simp [isOkE] at h

theorem processToken_error_of_malformed (t : String) (h : tokenMalformed t = true) :
    ∃ e, processToken t = .error e := by
  unfold tokenMalformed at h
  unfold processToken
  cases hf : fieldsFunc t with
  | nil => exact ⟨_, rfl⟩
  | cons a l =>
    cases l with
    | nil => exact ⟨_, rfl⟩
    | cons b l2 =>
      cases l2 with
      | cons c l3 => exact ⟨_, rfl⟩
      | nil =>
        rw [hf] at h
        by_cases hp : propertyOptions.contains a
        · have hb : stateOptions.contains b = false := by
            simp only [hp] at h
            simpa using h
          have hb' : ¬((b = "yes" ∨ b = "y" ∨ b = "on") ∨ (b = "no" ∨ b = "n" ∨ b = "off")) := by
            rw [← stateOptions_contains_iff, hb]
            simp
          have h1 : ¬(b = "yes" ∨ b = "y" ∨ b = "on") := fun hh => hb' (Or.inl hh)
          have h2 : ¬(b = "no" ∨ b = "n" ∨ b = "off") := fun hh => hb' (Or.inr hh)
          refine ⟨stateErrMsg b a, ?_⟩
          simp only [hp, if_true, normalizeState, h1, h2, if_false]
        · have hp' : propertyOptions.contains a = false := by
            simpa using hp
          refine ⟨propertyErrMsg a, ?_⟩
          simp only [hp', Bool.false_eq_true, if_false]

theorem runTokens_error_of_exists (ts : List String) :
    ∀ acc, (∃ t ∈ ts, isOkE (processToken t) = false) →
      ∃ e, runTokens ts acc = .error e := by
  induction ts with
  | nil =>
    intro acc h
    simp at h
  | cons t rest ih =>
    intro acc h
    cases hpt : processToken t with
    | error e => exact ⟨e, by simp [runTokens, hpt]⟩
    | ok pr =>
      obtain ⟨u, hu, hbad⟩ := h
      rcases List.mem_cons.mp hu with rfl | hmem
      · rw [hpt] at hbad
        simp [isOkE] at hbad
      · obtain ⟨p, s⟩ := pr
        have hrec := ih ⟨insertEntry acc.properties p s, acc.sequence ++ [p]⟩ ⟨u, hmem, hbad⟩
        obtain ⟨e, he⟩ := hrec
        exact ⟨e, by simp [runTokens, hpt, he]⟩

theorem runTokens_ok (ts : List String) :
    ∀ acc, (∀ t ∈ ts, isOkE (processToken t) = true) →
      runTokens ts acc = .ok ⟨applyPairs (processedPairs ts) acc.properties,
        acc.sequence ++ (processedPairs ts).map Prod.fst⟩ := by
  induction ts with
  | nil =>
    intro acc h
    simp [runTokens, processedPairs, applyPairs]
  | cons t rest ih =>
    intro acc h
    have ht : isOkE (processToken t) = true := h t (List.mem_cons_self t rest)
    obtain ⟨⟨p, s⟩, hpt⟩ := isOkE_exists _ ht
    have hrest : ∀ u ∈ rest, isOkE (processToken u) = true :=
      fun u hu => h u (List.mem_cons_of_mem _ hu)
    have hstep : runTokens (t :: rest) acc
        = runTokens rest ⟨insertEntry acc.properties p s, acc.sequence ++ [p]⟩ := by
      simp [runTokens, hpt]
    have hpp : processedPairs (t :: rest) = (p, s) :: processedPairs rest := by
      simp only [processedPairs, List.filterMap_cons, hpt, Except.toOption]
    rw [hstep, ih _ hrest, hpp]
    simp [applyPairs, List.append_assoc]

theorem processedPairs_length (ts : List String)
    (h : ∀ t ∈ ts, isOkE (processToken t) = true) :
    (processedPairs ts).length = ts.length := by
  induction ts with
  | nil => rfl
  | cons t rest ih =>
    obtain ⟨pr, hpt⟩ := isOkE_exists _ (h t (List.mem_cons_self t rest))
    have hlen := ih (fun u hu => h u (List.mem_cons_of_mem _ hu))
    have hpp : processedPairs (t :: rest) = pr :: processedPairs rest := by
      simp only [processedPairs, List.filterMap_cons, hpt, Except.toOption]
    rw [hpp, List.length_cons, hlen, List.length_cons]

theorem normalizeState_yes (p s : String) (hs : s = "yes" ∨ s = "y" ∨ s = "on") :
    normalizeState p s = .ok "yes" := by
  unfold normalizeState
  rw [if_pos hs]

theorem normalizeState_no (p s : String) (h1 : ¬(s = "yes" ∨ s = "y" ∨ s = "on"))
    (hs : s = "no" ∨ s = "n" ∨ s = "off") : normalizeState p s = .ok "no" := by
  unfold normalizeState
  rw [if_neg h1, if_pos hs]

theorem normalizeState_bad (p s : String) (h1 : ¬(s = "yes" ∨ s = "y" ∨ s = "on"))
    (h2 : ¬(s = "no" ∨ s = "n" ∨ s = "off")) :
    normalizeState p s = .error (stateErrMsg s p) := by
  unfold normalizeState
  rw [if_neg h1, if_neg h2]

theorem processToken_two_fields (t p s : String) (hf : fieldsFunc t = [p, s]) :
    processToken t
      = if propertyOptions.contains p then
          match normalizeState p s with
          | .ok c => Except.ok (p, c)
          | .error e => Except.error e
        else Except.error (propertyErrMsg p) := by
  unfold processToken
  rw [hf]

theorem processToken_of_fields (t p s c : String) (hf : fieldsFunc t = [p, s])
    (hp : propertyOptions.contains p = true) (hn : normalizeState p s = .ok c) :
    processToken t = .ok (p, c) := by
  rw [processToken_two_fields t p s hf, if_pos hp, hn]

theorem processToken_state_error (t p s : String) (hf : fieldsFunc t = [p, s])
    (hp : propertyOptions.contains p = true)
    (h1 : ¬(s = "yes" ∨ s = "y" ∨ s = "on")) (h2 : ¬(s = "no" ∨ s = "n" ∨ s = "off")) :
    processToken t = .error (stateErrMsg s p) := by
  rw [processToken_two_fields t p s hf, if_pos hp, normalizeState_bad p s h1 h2]

theorem runTokens_cons_ok (t p c : String) (rest : List String)
    (acc : AdapterStatesAcc) (h : processToken t = .ok (p, c)) :
    runTokens (t :: rest) acc
      = runTokens rest ⟨insertEntry acc.properties p c, acc.sequence ++ [p]⟩ := by
  simp [runTokens, h]

theorem runTokens_cons_error (t e : String) (rest : List String)
    (acc : AdapterStatesAcc) (h : processToken t = .error e) :
    runTokens (t :: rest) acc = .error e := by
  simp [runTokens, h]

/-! ## Claim theorems: adapter-states -/

/-- C1: an adapter-states input (a supplied, non-empty option value) that
contains at least one malformed token — one that does not split into exactly
two fields, or whose property is not in {powered, scan, discoverable,
pairable}, or whose state is not in {yes, y, on, no, n, off} — makes the
validator fail fatally, and no store (in particular no partial
adapter-states mapping) is ever produced. -/
theorem adapterStates_malformed_token_fatal (st : Store)
    (hne : getProperty st "adapter-states" ≠ "")
    (hmal : ∃ t ∈ splitChar (getProperty st "adapter-states") ',', tokenMalformed t = true) :
    (∃ e, cmdOptionAdapterStates st = Except.error e) ∧
      ∀ st', cmdOptionAdapterStates st ≠ Except.ok st' := by
  obtain ⟨t, hmem, hmalt⟩ := hmal
  obtain ⟨e0, he0⟩ := processToken_error_of_malformed t hmalt
  have hbad : isOkE (processToken t) = false := by rw [he0]; rfl
  obtain ⟨e, he⟩ := runTokens_error_of_exists _ ⟨[], []⟩ ⟨t, hmem, hbad⟩
  have hrun : cmdOptionAdapterStates st = .error e := by
    unfold cmdOptionAdapterStates
    simp only [hne, if_false, he]
  refine ⟨⟨e, hrun⟩, fun st' hok => ?_⟩
  rw [hrun] at hok
  cases hok

/-- Witness for C1: the single-token input `powered:maybe` (unknown state)
is rejected and no store is produced. -/
theorem adapterStates_malformed_token_fatal_witness :
    (∃ e, cmdOptionAdapterStates [("adapter-states", Value.str "powered:maybe")]
        = Except.error e) ∧
      ∀ st', cmdOptionAdapterStates [("adapter-states", Value.str "powered:maybe")]
        ≠ Except.ok st' :=
  adapterStates_malformed_token_fatal [("adapter-states", Value.str "powered:maybe")]
    (by decide) ⟨"powered:maybe", by decide, by decide⟩

/-- C2: for a token with a valid property and state field in {yes, y, on},
the canonical state `yes` is what the loop stores into the mapping (and
appends to the sequence); states in {no, n, off} store the canonical `no`;
any other state is fatal with the diagnostic listing the valid states. -/
theorem adapterStates_state_normalization (t p s : String) (rest : List String)
    (acc : AdapterStatesAcc)
    (hf : fieldsFunc t = [p, s]) (hp : propertyOptions.contains p = true) :
    ((s = "yes" ∨ s = "y" ∨ s = "on") →
      processToken t = Except.ok (p, "yes") ∧
      runTokens (t :: rest) acc
        = runTokens rest ⟨insertEntry acc.properties p "yes", acc.sequence ++ [p]⟩) ∧
    ((s = "no" ∨ s = "n" ∨ s = "off") →
      processToken t = Except.ok (p, "no") ∧
      runTokens (t :: rest) acc
        = runTokens rest ⟨insertEntry acc.properties p "no", acc.sequence ++ [p]⟩) ∧
    (¬(s = "yes" ∨ s = "y" ∨ s = "on") → ¬(s = "no" ∨ s = "n" ∨ s = "off") →
      runTokens (t :: rest) acc = Except.error (stateErrMsg s p)) := by
  refine ⟨fun hs => ?_, fun hs => ?_, fun h1 h2 => ?_⟩
  · have hok := processToken_of_fields t p s "yes" hf hp (normalizeState_yes p s hs)
    exact ⟨hok, runTokens_cons_ok t p "yes" rest acc hok⟩
  · have h1 : ¬(s = "yes" ∨ s = "y" ∨ s = "on") := by
      rcases hs with rfl | rfl | rfl <;> simp
    have hok := processToken_of_fields t p s "no" hf hp (normalizeState_no p s h1 hs)
    exact ⟨hok, runTokens_cons_ok t p "no" rest acc hok⟩
  · exact runTokens_cons_error t _ rest acc (processToken_state_error t p s hf hp h1 h2)

/-- Witness for C2: the token `powered:y` normalizes to the canonical state
`yes` and is stored under property `powered`. -/
theorem adapterStates_state_normalization_witness :
    processToken "powered:y" = Except.ok ("powered", "yes") ∧
      runTokens ["powered:y"] ⟨[], []⟩
        = runTokens [] ⟨insertEntry [] "powered" "yes", [] ++ ["powered"]⟩ :=
  (adapterStates_state_normalization "powered:y" "powered" "y" [] ⟨[], []⟩
    (by decide) (by decide)).1 (by decide)

theorem lookupEntry_applyPairs (pairs : List (String × String))
    (m0 : List (String × String)) (k : String) :
    lookupEntry (applyPairs pairs m0) k
      = optOr (lookupEntry pairs.reverse k) (lookupEntry m0 k) :=
  lookupEntry_foldl_insert pairs m0 k

theorem getProperty_addProperty_same (st : Store) (k s : String) :
    getProperty (addProperty st k (Value.str s)) k = s := by
  simp [getProperty, addProperty, lookupEntry_insertEntry]

theorem getProperty_addProperty_other (st : Store) (k k' : String) (v : Value)
    (h : k' ≠ k) : getProperty (addProperty st k v) k' = getProperty st k' := by
  simp [getProperty, addProperty, lookupEntry_insertEntry, h]

/-- Shape of a successful `adapter-states` run: the store receives, under
`adapter-states`, the mapping accumulated from the processed pairs plus the
comma-joined `sequence` key. -/
theorem cmdOptionAdapterStates_ok_shape (st : Store)
    (hne : getProperty st "adapter-states" ≠ "")
    (hall : ∀ t ∈ splitChar (getProperty st "adapter-states") ',',
      isOkE (processToken t) = true) :
    cmdOptionAdapterStates st = .ok (addProperty st "adapter-states"
      (.strMap (insertEntry
        (applyPairs (processedPairs (splitChar (getProperty st "adapter-states") ',')) [])
        "sequence"
        (joinSep ","
          ((processedPairs (splitChar (getProperty st "adapter-states") ',')).map
            Prod.fst))))) := by
  have hrun := runTokens_ok (splitChar (getProperty st "adapter-states") ',') ⟨[], []⟩ hall
  unfold cmdOptionAdapterStates
  simp only [hne, if_false, hrun, List.nil_append]

/-- C3: when every token of a supplied adapter-states input is valid, the
stored structure records one sequence entry per token — the property names
in input order, duplicates preserved — while the mapping holds, for each
property, the canonical state of the last token naming it. -/
theorem adapterStates_sequence_and_last_wins (st : Store)
    (hne : getProperty st "adapter-states" ≠ "")
    (hall : ∀ t ∈ splitChar (getProperty st "adapter-states") ',',
      isOkE (processToken t) = true) :
    ∃ st' m,
      cmdOptionAdapterStates st = Except.ok st' ∧
      lookupEntry st' "adapter-states" = some (Value.strMap m) ∧
      lookupEntry m "sequence"
        = some (joinSep ","
            ((processedPairs (splitChar (getProperty st "adapter-states") ',')).map
              Prod.fst)) ∧
      (processedPairs (splitChar (getProperty st "adapter-states") ',')).length
        = (splitChar (getProperty st "adapter-states") ',').length ∧
      ∀ p ∈ propertyOptions,
        lookupEntry m p
          = lastStateFor (processedPairs (splitChar (getProperty st "adapter-states") ',')) p := by
  have hshape := cmdOptionAdapterStates_ok_shape st hne hall
  refine ⟨_, insertEntry
      (applyPairs (processedPairs (splitChar (getProperty st "adapter-states") ',')) [])
      "sequence"
      (joinSep ","
        ((processedPairs (splitChar (getProperty st "adapter-states") ',')).map Prod.fst)),
    hshape, ?_, ?_, processedPairs_length _ hall, ?_⟩
  · simp [addProperty, lookupEntry_insertEntry]
  · simp [lookupEntry_insertEntry]
  · intro p hp
    have hps : p ≠ "sequence" := by
      simp only [propertyOptions, List.mem_cons, List.not_mem_nil, or_false] at hp
      rcases hp with rfl | rfl | rfl | rfl <;> decide
    rw [lookupEntry_insertEntry, if_neg hps, lookupEntry_applyPairs,
      show lookupEntry ([] : List (String × String)) p = none from rfl, optOr_none_right]
    rfl

/-- Witness for C3: the spec scenario `scan:on,powered:off` stores the
sequence `scan,powered` and the mapping `{scan: yes, powered: no}`. -/
theorem adapterStates_sequence_and_last_wins_witness :
    ∃ st' m,
      cmdOptionAdapterStates [("adapter-states", Value.str "scan:on,powered:off")]
        = Except.ok st' ∧
      lookupEntry st' "adapter-states" = some (Value.strMap m) ∧
      lookupEntry m "sequence"
        = some (joinSep ","
            ((processedPairs (splitChar
              (getProperty [("adapter-states", Value.str "scan:on,powered:off")]
                "adapter-states") ',')).map Prod.fst)) ∧
      (processedPairs (splitChar
          (getProperty [("adapter-states", Value.str "scan:on,powered:off")]
            "adapter-states") ',')).length
        = (splitChar (getProperty [("adapter-states", Value.str "scan:on,powered:off")]
            "adapter-states") ',').length ∧
      ∀ p ∈ propertyOptions,
        lookupEntry m p
          = lastStateFor (processedPairs (splitChar
              (getProperty [("adapter-states", Value.str "scan:on,powered:off")]
                "adapter-states") ',')) p :=
  adapterStates_sequence_and_last_wins
    [("adapter-states", Value.str "scan:on,powered:off")] (by decide) (by decide)

/-- C10: on a successful run, the structure stored under `adapter-states` is
a single string-keyed mapping whose keys are exactly the validated property
names plus the reserved key `sequence`, the latter holding the comma-joined
ordered property-name list. -/
theorem adapterStates_stored_mapping_keys (st : Store)
    (hne : getProperty st "adapter-states" ≠ "")
    (hall : ∀ t ∈ splitChar (getProperty st "adapter-states") ',',
      isOkE (processToken t) = true) :
    ∃ st' m,
      cmdOptionAdapterStates st = Except.ok st' ∧
      lookupEntry st' "adapter-states" = some (Value.strMap m) ∧
      (∀ k, (lookupEntry m k).isSome = true ↔
        (k ∈ (processedPairs (splitChar (getProperty st "adapter-states") ',')).map
            Prod.fst ∨ k = "sequence")) ∧
      lookupEntry m "sequence"
        = some (joinSep ","
            ((processedPairs (splitChar (getProperty st "adapter-states") ',')).map
              Prod.fst)) := by
  have hshape := cmdOptionAdapterStates_ok_shape st hne hall
  refine ⟨_, insertEntry
      (applyPairs (processedPairs (splitChar (getProperty st "adapter-states") ',')) [])
      "sequence"
      (joinSep ","
        ((processedPairs (splitChar (getProperty st "adapter-states") ',')).map Prod.fst)),
    hshape, ?_, ?_, ?_⟩
  · simp [addProperty, lookupEntry_insertEntry]
  · intro k
    by_cases hk : k = "sequence"
    · subst hk
      simp [lookupEntry_insertEntry]
    · rw [lookupEntry_insertEntry, if_neg hk, lookupEntry_applyPairs,
        show lookupEntry ([] : List (String × String)) k = none from rfl, optOr_none_right,
        lookupEntry_isSome_iff]
      simp [List.map_reverse, hk]
  · simp [lookupEntry_insertEntry]

/-- Witness for C10 at the input `powered:yes,powered:off`: the stored keys
are exactly `powered` and `sequence`, and the sequence lists `powered`
twice. -/
theorem adapterStates_stored_mapping_keys_witness :
    ∃ st' m,
      cmdOptionAdapterStates [("adapter-states", Value.str "powered:yes,powered:off")]
        = Except.ok st' ∧
      lookupEntry st' "adapter-states" = some (Value.strMap m) ∧
      (∀ k, (lookupEntry m k).isSome = true ↔
        (k ∈ (processedPairs (splitChar
            (getProperty [("adapter-states", Value.str "powered:yes,powered:off")]
              "adapter-states") ',')).map Prod.fst ∨ k = "sequence")) ∧
      lookupEntry m "sequence"
        = some (joinSep ","
            ((processedPairs (splitChar
              (getProperty [("adapter-states", Value.str "powered:yes,powered:off")]
                "adapter-states") ',')).map Prod.fst)) :=
  adapterStates_stored_mapping_keys
    [("adapter-states", Value.str "powered:yes,powered:off")] (by decide) (by decide)

/-! ## Claim theorem: GSM -/

/-- C4: the GSM validator is fatal exactly when a non-empty APN comes with
an empty number; otherwise it stores the APN unchanged (possibly empty) and
the number — the supplied value when non-empty, the canonical default
`*99#` when empty. -/
theorem gsm_validation (st : Store) :
    (getProperty st "gsm-number" = "" → getProperty st "gsm-apn" ≠ "" →
      cmdOptionGsm st = Except.error "Specify GSM Number.") ∧
    (getProperty st "gsm-number" = "" → getProperty st "gsm-apn" = "" →
      ∃ st', cmdOptionGsm st = Except.ok st' ∧
        getProperty st' "gsm-apn" = "" ∧ getProperty st' "gsm-number" = "*99#") ∧
    (getProperty st "gsm-number" ≠ "" →
      ∃ st', cmdOptionGsm st = Except.ok st' ∧
        getProperty st' "gsm-apn" = getProperty st "gsm-apn" ∧
        getProperty st' "gsm-number" = getProperty st "gsm-number") := by
  refine ⟨fun h1 h2 => ?_, fun h1 h2 => ?_, fun h1 => ?_⟩
  · unfold cmdOptionGsm
    rw [if_pos ⟨h1, h2⟩]
  · have hcond : ¬(getProperty st "gsm-number" = "" ∧ getProperty st "gsm-apn" ≠ "") :=
      fun hc => hc.2 h2
    refine ⟨addProperty (addProperty st "gsm-apn" (Value.str (getProperty st "gsm-apn")))
      "gsm-number" (Value.str "*99#"), ?_, ?_, ?_⟩
    · unfold cmdOptionGsm
      rw [if_neg hcond, if_neg (fun hc => hc h1)]
    · rw [getProperty_addProperty_other _ _ _ _ (by decide),
        getProperty_addProperty_same, h2]
    · rw [getProperty_addProperty_same]
  · have hcond : ¬(getProperty st "gsm-number" = "" ∧ getProperty st "gsm-apn" ≠ "") :=
      fun hc => h1 hc.1
    refine ⟨addProperty (addProperty st "gsm-apn" (Value.str (getProperty st "gsm-apn")))
      "gsm-number" (Value.str (getProperty st "gsm-number")), ?_, ?_, ?_⟩
    · unfold cmdOptionGsm
      rw [if_neg hcond, if_pos h1]
    · rw [getProperty_addProperty_other _ _ _ _ (by decide),
        getProperty_addProperty_same]
    · rw [getProperty_addProperty_same]

/-- Witness for C4 at the three spec scenarios: `apn=foo, number=empty` is
fatal; both empty stores `{apn: empty, number: *99#}`; `apn=foo, number=555`
stores both unchanged. -/
theorem gsm_validation_witness :
    cmdOptionGsm [("gsm-apn", Value.str "foo")] = Except.error "Specify GSM Number." ∧
    (∃ st', cmdOptionGsm [] = Except.ok st' ∧
      getProperty st' "gsm-apn" = "" ∧ getProperty st' "gsm-number" = "*99#") ∧
    (∃ st', cmdOptionGsm [("gsm-apn", Value.str "foo"), ("gsm-number", Value.str "555")]
        = Except.ok st' ∧
      getProperty st' "gsm-apn"
        = getProperty [("gsm-apn", Value.str "foo"), ("gsm-number", Value.str "555")]
            "gsm-apn" ∧
      getProperty st' "gsm-number"
        = getProperty [("gsm-apn", Value.str "foo"), ("gsm-number", Value.str "555")]
            "gsm-number") :=
  ⟨(gsm_validation [("gsm-apn", Value.str "foo")]).1 (by decide) (by decide),
   (gsm_validation []).2.1 (by decide) (by decide),
   (gsm_validation [("gsm-apn", Value.str "foo"), ("gsm-number", Value.str "555")]).2.2
     (by decide)⟩

/-! ## Claim theorem: tokenization separators -/

/-- C9: tokenization splits a token on every space and colon and drops the
empty fields, so any token whose non-empty fields are a valid property and
a valid state is accepted, however the separators repeat or mix; in
particular `powered::yes`, `powered : on` and `powered: yes` all parse as
property `powered` with the given state. -/
theorem adapterStates_token_separators :
    (∀ t p s, fieldsFunc t = [p, s] → propertyOptions.contains p = true →
      stateOptions.contains s = true → ∃ c, processToken t = Except.ok (p, c)) ∧
    fieldsFunc "powered::yes" = ["powered", "yes"] ∧
    fieldsFunc "powered : on" = ["powered", "on"] ∧
    fieldsFunc "powered: yes" = ["powered", "yes"] ∧
    processToken "powered::yes" = Except.ok ("powered", "yes") ∧
    processToken "powered : on" = Except.ok ("powered", "yes") ∧
    processToken "powered: yes" = Except.ok ("powered", "yes") := by
  refine ⟨fun t p s hf hp hs => ?_, by decide, by decide, by decide,
    by decide, by decide, by decide⟩
  rcases (stateOptions_contains_iff s).mp hs with hy | hn
  · exact ⟨"yes", processToken_of_fields t p s "yes" hf hp (normalizeState_yes p s hy)⟩
  · have h1 : ¬(s = "yes" ∨ s = "y" ∨ s = "on") := by
      rcases hn with rfl | rfl | rfl <;> simp
    exact ⟨"no", processToken_of_fields t p s "no" hf hp (normalizeState_no p s h1 hn)⟩

/-- Witness for C9: the mixed-separator token `discoverable : off` is
accepted for property `discoverable`. -/
theorem adapterStates_token_separators_witness :
    ∃ c, processToken "discoverable : off" = Except.ok ("discoverable", c) :=
  adapterStates_token_separators.1 "discoverable : off" "discoverable" "off"
    (by decide) (by decide) (by decide)

/-! ## Claim theorems: layered loader -/

/-- C5: during loading, a missing config file or an empty config file (one
the structured-text parser reads as an empty mapping) is tolerated and
startup continues, while a file the parser rejects is fatal with the parse
error surfaced. -/
theorem configLoad_missing_tolerated_malformed_fatal
    (p : String → Except String (List (String × Value))) (flags : Store)
    (text e : String)
    (hempty : p "" = Except.ok []) (hbad : p text = Except.error e) :
    isOkE (parseConfig p none flags) = true ∧
    isOkE (parseConfig p (some "") flags) = true ∧
    parseConfig p (some text) flags = Except.error e := by
  refine ⟨rfl, ?_, ?_⟩
  · simp [parseConfig, loadConfigFile, hempty, isOkE]
  · simp [parseConfig, loadConfigFile, hbad]

/-- Witness for C5 with the sample parser: missing and empty files load
fine, the malformed document `bad` is fatal. -/
theorem configLoad_missing_tolerated_malformed_fatal_witness :
    isOkE (parseConfig sampleParse none []) = true ∧
    isOkE (parseConfig sampleParse (some "") []) = true ∧
    parseConfig sampleParse (some "bad") [] = Except.error "parse error" :=
  configLoad_missing_tolerated_malformed_fatal sampleParse [] "bad" "parse error"
    (by decide) (by decide)

/-- C6: overlaying the explicitly supplied flag values onto the file store
makes every flag-supplied key resolve to the flag value, while keys the
flags do not mention keep the file-provided value. -/
theorem flag_precedence (fileStore flags : Store)
    (hn : (flags.map Prod.fst).Nodup) (k : String) :
    (∀ v, lookupEntry flags k = some v →
      lookupEntry (overlayFlags fileStore flags) k = some v) ∧
    (lookupEntry flags k = none →
      lookupEntry (overlayFlags fileStore flags) k = lookupEntry fileStore k) := by
  have hov : lookupEntry (overlayFlags fileStore flags) k
      = optOr (lookupEntry flags.reverse k) (lookupEntry fileStore k) :=
    lookupEntry_foldl_insert flags fileStore k
  rw [lookupEntry_reverse_of_nodup flags hn k] at hov
  constructor
  · intro v hv
    rw [hov, hv]
    rfl
  · intro hv
    rw [hov, hv]
    rfl

/-- Witness for C6: with file values for `adapter` and `theme` and an
explicit flag for `adapter` only, the merged store resolves `adapter` to
the flag value and `theme` to the file value. -/
theorem flag_precedence_witness :
    lookupEntry (overlayFlags
        [("adapter", Value.str "hci0"), ("theme", Value.str "dark")]
        [("adapter", Value.str "hci1")]) "adapter" = some (Value.str "hci1") ∧
    lookupEntry (overlayFlags
        [("adapter", Value.str "hci0"), ("theme", Value.str "dark")]
        [("adapter", Value.str "hci1")]) "theme" = some (Value.str "dark") :=
  ⟨(flag_precedence [("adapter", Value.str "hci0"), ("theme", Value.str "dark")]
      [("adapter", Value.str "hci1")] (by decide) "adapter").1
      (Value.str "hci1") (by decide),
   ((flag_precedence [("adapter", Value.str "hci0"), ("theme", Value.str "dark")]
      [("adapter", Value.str "hci1")] (by decide) "theme").2
      (by decide)).trans (by decide)⟩

/-! ## String lemmas for the adapter listing -/

theorem foldl_listing (l : List Adapter) : ∀ init : String,
    l.foldl (fun acc a => acc ++ "- " ++ filepathBase a.path ++ "\n") init
      = init ++ strJoinNL (l.map (fun a => "- " ++ filepathBase a.path)) := by
  induction l with
  | nil =>
    intro init
    simp [strJoinNL]
  | cons a rest ih =>
    intro init
    simp only [List.foldl_cons, List.map_cons, strJoinNL]
    rw [ih]
    simp [String.append_assoc]

theorem dropRightChars_append_nl (s : String) :
    dropRightChars (s ++ "\n") '\n' = dropRightChars s '\n' := by
  unfold dropRightChars
  have hd : (s ++ "\n").data = s.data ++ ['\n'] := by
    rw [String.data_append]
  rw [hd, List.reverse_append]
  simp [List.dropWhile_cons]

theorem dropRightChars_no_trailing (s : String) (c : Char)
    (h : s.data.getLast? ≠ some c) : dropRightChars s c = s := by
  unfold dropRightChars
  cases hr : s.data.reverse with
  | nil =>
    have hnil : s.data = [] := List.reverse_eq_nil_iff.mp hr
    apply String.ext
    simp [hr, hnil]
  | cons a l =>
    have ha : s.data.getLast? = some a := by
      rw [← List.head?_reverse, hr]
      rfl
    have hac : ¬((a == c) = true) := by
      intro hb
      have hae : a = c := eq_of_beq hb
      exact h (ha.trans (by rw [hae]))
    rw [List.dropWhile_cons, if_neg hac]
    apply String.ext
    show (a :: l).reverse = s.data
    rw [← hr, List.reverse_reverse]

theorem dropRight_strJoinNL (items : List String) :
    ∀ h : String, items ≠ [] →
      (∀ x, items.getLast? = some x → x.data ≠ [] ∧ x.data.getLast? ≠ some '\n') →
      dropRightChars ((h ++ "\n") ++ strJoinNL items) '\n' = joinSep "\n" (h :: items) := by
  induction items with
  | nil =>
    intro h hne _
    exact absurd rfl hne
  | cons x rest ih =>
    intro h _ hlast
    cases rest with
    | nil =>
      obtain ⟨hxne, hxl⟩ := hlast x (by simp)
      have heq : (h ++ "\n") ++ strJoinNL [x] = ((h ++ "\n") ++ x) ++ "\n" := by
        simp [strJoinNL, String.append_assoc]
      rw [heq, dropRightChars_append_nl, dropRightChars_no_trailing]
      · simp [joinSep, String.append_assoc]
      · rw [String.data_append, List.getLast?_append]
        cases hx : x.data.getLast? with
        | none =>
          exact absurd (List.getLast?_eq_none_iff.mp hx) hxne
        | some z =>
          rw [hx] at hxl
          simpa using hxl
    | cons y rest2 =>
      have heq : (h ++ "\n") ++ strJoinNL (x :: y :: rest2)
          = ((h ++ "\n" ++ x) ++ "\n") ++ strJoinNL (y :: rest2) := by
        simp [strJoinNL, String.append_assoc]
      rw [heq, ih (h ++ "\n" ++ x) (by simp)
        (fun z hz => hlast z (by rw [List.getLast?_cons_cons]; exact hz))]
      simp [joinSep, String.append_assoc]

theorem listing_last_ok (adapters : List Adapter)
    (hbase : ∀ a ∈ adapters, (filepathBase a.path).data.getLast? ≠ some '\n') :
    ∀ x, (adapters.map (fun a => "- " ++ filepathBase a.path)).getLast? = some x →
      x.data ≠ [] ∧ x.data.getLast? ≠ some '\n' := by
  intro x hx
  rw [List.getLast?_map] at hx
  cases ha : adapters.getLast? with
  | none =>
    rw [ha] at hx
    cases hx
  | some a =>
    rw [ha] at hx
    have hax : ("- " ++ filepathBase a.path) = x := by
      simpa using hx
    have hmem : a ∈ adapters := List.mem_of_getLast?_eq_some ha
    have hb := hbase a hmem
    subst hax
    constructor
    · rw [String.data_append]
      simp
    · rw [String.data_append, List.getLast?_append]
      cases hbd : (filepathBase a.path).data.getLast? with
      | none =>
        simp [hbd]
      | some z =>
        rw [hbd] at hb
        simpa using hb

/-! ## Claim theorem: list-adapters -/

/-- C7: with `list-adapters` enabled, the validator prints the header line
followed by every known adapter's base path segment, one per line, returns
the store untouched and continues (no termination, no store write); the
hypothesis on base segments merely excludes path strings that themselves
end in a newline, which the trailing-newline trim would otherwise eat. -/
theorem listAdapters_prints_and_continues (adapters : List Adapter) (st : Store)
    (hen : isPropertyEnabled st "list-adapters" = true)
    (hbase : ∀ a ∈ adapters, (filepathBase a.path).data.getLast? ≠ some '\n') :
    cmdOptionListAdapters adapters st
      = (some (joinSep "\n"
          ("List of adapters:" :: adapters.map (fun a => "- " ++ filepathBase a.path))),
        st) := by
  unfold cmdOptionListAdapters
  rw [hen, if_neg (by decide : ¬((!true) = true))]
  rw [foldl_listing adapters "List of adapters:\n"]
  cases adapters with
  | nil =>
    have hone : dropRightChars
        ("List of adapters:\n"
          ++ strJoinNL (List.map (fun a : Adapter => "- " ++ filepathBase a.path) [])) '\n'
        = joinSep "\n"
            ("List of adapters:"
              :: List.map (fun a : Adapter => "- " ++ filepathBase a.path) []) := by
      simp only [List.map_nil, strJoinNL, String.append_empty]
      decide
    rw [hone]
  | cons a rest =>
    have hsplit : "List of adapters:\n" = "List of adapters:" ++ "\n" := by decide
    rw [hsplit, dropRight_strJoinNL
      (List.map (fun x => "- " ++ filepathBase x.path) (a :: rest))
      "List of adapters:" (by simp) (listing_last_ok (a :: rest) hbase)]

/-- Witness for C7: two adapters at the usual D-Bus paths are listed by
their base segments `hci0` and `hci1`, with the store untouched. -/
theorem listAdapters_prints_and_continues_witness :
    cmdOptionListAdapters
        [⟨"ctrl0", "/org/bluez/hci0"⟩, ⟨"ctrl1", "/org/bluez/hci1"⟩]
        [("list-adapters", Value.boolean true)]
      = (some (joinSep "\n" ("List of adapters:"
          :: ([⟨"ctrl0", "/org/bluez/hci0"⟩, ⟨"ctrl1", "/org/bluez/hci1"⟩]
              : List Adapter).map
            (fun a => "- " ++ filepathBase a.path))),
        [("list-adapters", Value.boolean true)]) :=
  listAdapters_prints_and_continues
    [⟨"ctrl0", "/org/bluez/hci0"⟩, ⟨"ctrl1", "/org/bluez/hci1"⟩]
    [("list-adapters", Value.boolean true)] (by decide) (by decide)

/-! ## Claim theorem: version -/

theorem splitListAux_no_sep (sep : Char → Bool) (l : List Char) :
    ∀ cur, (∀ x ∈ l, sep x = false) →
      splitListAux sep l cur = [cur.reverse ++ l] := by
  induction l with
  | nil =>
    intro cur _
    simp [splitListAux]
  | cons a l2 ih =>
    intro cur h
    have ha : sep a = false := h a (List.mem_cons_self a l2)
    rw [show splitListAux sep (a :: l2) cur = splitListAux sep l2 (a :: cur) from by
      simp [splitListAux, ha]]
    rw [ih (a :: cur) (fun x hx => h x (List.mem_cons_of_mem a hx))]
    simp

theorem splitChar_no_sep (s : String) (c : Char) (h : ∀ x ∈ s.data, x ≠ c) :
    splitChar s c = [s] := by
  unfold splitChar
  rw [splitListAux_no_sep (fun x => x == c) s.data []
    (fun x hx => by simpa using h x hx)]
  simp only [List.reverse_nil, List.nil_append, List.map_cons, List.map_nil]

/-- C8: with `version` enabled, the validator prints a string derived by
splitting the encoded value on `@`: when a build segment is present it
prints both version and build, and when the split yields no build segment
(in particular when the value contains no `@` at all) it prints the version
alone; in both cases the action terminates without error. -/
theorem version_print_format (vVersion : String) (st : Store)
    (hen : isPropertyEnabled st "version" = true) :
    (∀ v0, splitChar vVersion '@' = [v0] →
      cmdOptionVersion vVersion st
        = VersionOutcome.printed ("Bluetuith v" ++ vVersion)) ∧
    (∀ v0 v1 rest, splitChar vVersion '@' = v0 :: v1 :: rest →
      cmdOptionVersion vVersion st
        = VersionOutcome.printed ("Bluetuith v" ++ v0 ++ " (" ++ v1 ++ ")")) ∧
    ((∀ x ∈ vVersion.data, x ≠ '@') →
      cmdOptionVersion vVersion st
        = VersionOutcome.printed ("Bluetuith v" ++ vVersion)) := by
  have hsingle : ∀ v0, splitChar vVersion '@' = [v0] →
      cmdOptionVersion vVersion st
        = VersionOutcome.printed ("Bluetuith v" ++ vVersion) := by
    intro v0 hs
    unfold cmdOptionVersion
    rw [hen, if_pos rfl, hs]
  refine ⟨hsingle, ?_, ?_⟩
  · intro v0 v1 rest hs
    unfold cmdOptionVersion
    rw [hen, if_pos rfl, hs]
  · intro hna
    exact hsingle vVersion (splitChar_no_sep vVersion '@' hna)

/-- Witness for C8: an encoded value with a build segment prints version and
build, one without prints the version alone. -/
theorem version_print_format_witness :
    cmdOptionVersion "1.0.0@abc123" [("version", Value.boolean true)]
      = VersionOutcome.printed ("Bluetuith v" ++ "1.0.0" ++ " (" ++ "abc123" ++ ")") ∧
    cmdOptionVersion "2.3" [("version", Value.boolean true)]
      = VersionOutcome.printed ("Bluetuith v" ++ "2.3") :=
  ⟨(version_print_format "1.0.0@abc123" [("version", Value.boolean true)]
      (by decide)).2.1 "1.0.0" "abc123" [] (by decide),
   (version_print_format "2.3" [("version", Value.boolean true)]
      (by decide)).1 "2.3" (by decide)⟩

end Bluetuith
